import Mathlib

/-!
Shallow embedding of the Task-Management-API core (task router in
`src/index.js`, the canonical strict variant, plus the Task schema in
`models/Task.js`): role-scoped task listing with filter/sort composition,
the completed-task leaderboard aggregation, ownership-gated update/delete,
and validated task creation.

Mongo ObjectIds are modelled as `Nat`; BSON dates as `Nat` timestamps
(`Option Nat` for the optional `dueDate`; a JS `Date` object is always
truthy, `null`/missing is falsy, so truthiness of `dueDate` is `isSome`).
The document store is a `List` of documents; `_id` values are unique in a
real store, which theorems assume via `Nodup` hypotheses where needed.
-/

namespace TMA

/-- A task document, per `TaskSchema` in `models/Task.js`. `id` is the
Mongo `_id`. -/
structure Task where
  id : Nat
  title : String
  description : Option String
  status : String
  priority : String
  dueDate : Option Nat
  image : Option String
  createdBy : Nat
  assignedTo : Nat
deriving Repr, DecidableEq

/-- A user document (the fields the core reads): per `UserSchema`,
`role ∈ {user, admin}`. -/
structure User where
  id : Nat
  name : String
  email : String
  role : String
deriving Repr, DecidableEq

/-- The authenticated identity `req.user = {id, role}` produced by
`authMiddleware`. -/
structure Identity where
  id : Nat
  role : String
deriving Repr, DecidableEq

/-- Query parameters of `GET /api/tasks`: `{ status, priority, dueDate,
sort } = req.query`; `none` models an absent parameter. -/
structure ListFilters where
  status : Option String
  priority : Option String
  dueDate : Option Nat
  sort : Option String
deriving Repr, DecidableEq

/-- The equality filters the handler adds to `query`: `if (status)
query.status = status` etc.; `dueDate` is exact equality against the
stored timestamp. -/
def matchesFilters (f : ListFilters) (t : Task) : Bool :=
  (match f.status with | none => true | some s => t.status == s) &&
  (match f.priority with | none => true | some p => t.priority == p) &&
  (match f.dueDate with | none => true | some d => t.dueDate == some d)

/-- The full Mongo query built by `router.get('/')`: the `$or` ownership
restriction is added only when `req.user.role !== 'admin'`, then the
equality filters are ANDed on. -/
def matchesQuery (req : Identity) (f : ListFilters) (t : Task) : Bool :=
  (req.role == "admin" || t.createdBy == req.id || t.assignedTo == req.id) &&
  matchesFilters f t

/-- JS `s.startsWith('-')`, computed on the character list. -/
def startsWithDash (s : String) : Bool :=
  match s.data with
  | [] => false
  | c :: _ => c == '-'

/-- JS `hay.includes(needle)` on character lists: some suffix of `hay`
has `needle` as a prefix. -/
def charsInclude (needle : List Char) : List Char → Bool
  | [] => needle == []
  | c :: rest => needle.isPrefixOf (c :: rest) || charsInclude needle rest

/-- JS `s.includes(pat)`. -/
def strIncludes (s pat : String) : Bool :=
  charsInclude pat.data s.data

/-- Stable insertion of `a` into `l` under the comparison `le` (placed
before the first element it compares `le` to). -/
def insertLe {α : Type} (le : α → α → Bool) (a : α) : List α → List α
  | [] => [a]
  | b :: bs => if le a b then a :: b :: bs else b :: insertLe le a bs

/-- Stable sort by the comparison `le`; models the document store's sort
(deterministic whenever `le` is antisymmetric on the input's keys). -/
def sortLe {α : Type} (le : α → α → Bool) : List α → List α
  | [] => []
  | a :: as => insertLe le a (sortLe le as)

/-- Mongo's ascending comparison on the compound sort key
`{dueDate: 1, _id: 1}`: a missing `dueDate` (BSON null) sorts below every
date, and `_id` breaks ties. -/
def dueKeyLe (a b : Task) : Bool :=
  match a.dueDate, b.dueDate with
  | none, none => a.id ≤ b.id
  | none, some _ => true
  | some _, none => false
  | some x, some y => x < y || (x == y && a.id ≤ b.id)

/-- Mongo's ascending comparison for a single-field `sortOptions` on the
named field (no `_id` tie-break is added for fields other than
`dueDate`); an unknown field is missing on every document, so all
documents compare equal. -/
def fieldLe (field : String) (a b : Task) : Bool :=
  if field = "dueDate" then dueKeyLe a b
  else if field = "title" then a.title ≤ b.title
  else if field = "status" then a.status ≤ b.status
  else if field = "priority" then a.priority ≤ b.priority
  else if field = "_id" then a.id ≤ b.id
  else true

/-- `Task.find(query).sort(sortOptions)`: the store's sort of the matching
documents by the named field in the requested direction (`1` ascending,
`-1` descending). -/
def dbSort (field : String) (dir : Int) (ts : List Task) : List Task :=
  sortLe (fun a b => if dir = -1 then fieldLe field b a else fieldLe field a b) ts

/-- `router.get('/')` in `src/index.js`: build the role-scoped query, add
the equality filters, sort via the store, and when the sort parameter
mentions `dueDate` (JS `sort.includes('dueDate')`) re-emit the result as
[dated tasks, undated tasks], reversing the dated block for a descending
sort. -/
def listTasks (req : Identity) (f : ListFilters) (store : List Task) : List Task :=
  let filtered := store.filter (matchesQuery req f)
  match f.sort with
  | none => filtered
  | some sort =>
    let sortField := if startsWithDash sort then sort.drop 1 else sort
    let sortDirection : Int := if startsWithDash sort then -1 else 1
    let sorted := dbSort sortField sortDirection filtered
    if strIncludes sort "dueDate" then
      let withDueDate := sorted.filter (fun t => t.dueDate.isSome)
      let withoutDueDate := sorted.filter (fun t => !t.dueDate.isSome)
      if sortDirection = -1 then withDueDate.reverse ++ withoutDueDate
      else withDueDate ++ withoutDueDate
    else sorted

theorem mem_insertLe {α : Type} (le : α → α → Bool) (a x : α) (l : List α) :
    x ∈ insertLe le a l ↔ x = a ∨ x ∈ l := by
  induction l with
  | nil => simp [insertLe]
  | cons b bs ih =>
    simp only [insertLe]
    by_cases h : le a b = true
    · simp [h]
    · simp only [h, if_false, Bool.false_eq_true, if_neg, List.mem_cons, ih]
      tauto

theorem insertLe_perm {α : Type} (le : α → α → Bool) (a : α) (l : List α) :
    List.Perm (insertLe le a l) (a :: l) := by
  induction l with
  | nil => exact List.Perm.refl _
  | cons b bs ih =>
    simp only [insertLe]
    by_cases h : le a b = true
    · rw [if_pos h]
    · rw [if_neg h]
      exact (ih.cons b).trans (List.Perm.swap a b bs)

theorem sortLe_perm {α : Type} (le : α → α → Bool) (l : List α) :
    List.Perm (sortLe le l) l := by
  induction l with
  | nil => exact List.Perm.refl _
  | cons a as ih => exact (insertLe_perm le a (sortLe le as)).trans (ih.cons a)

theorem mem_sortLe {α : Type} (le : α → α → Bool) (x : α) (l : List α) :
    x ∈ sortLe le l ↔ x ∈ l :=
  (sortLe_perm le l).mem_iff

theorem pairwise_insertLe {α : Type} (le : α → α → Bool)
    (htrans : ∀ a b c, le a b = true → le b c = true → le a c = true)
    (htot : ∀ a b, le a b = true ∨ le b a = true)
    (a : α) (l : List α) (hl : l.Pairwise (fun x y => le x y = true)) :
    (insertLe le a l).Pairwise (fun x y => le x y = true) := by
  induction l with
  | nil => simp [insertLe]
  | cons b bs ih =>
    rcases List.pairwise_cons.mp hl with ⟨hb, hbs⟩
    simp only [insertLe]
    by_cases h : le a b = true
    · rw [if_pos h]
      refine List.pairwise_cons.mpr ⟨?_, hl⟩
      intro x hx
      rcases List.mem_cons.mp hx with rfl | hx
      · exact h
      · exact htrans a b x h (hb x hx)
    · rw [if_neg h]
      refine List.pairwise_cons.mpr ⟨?_, ih hbs⟩
      intro x hx
      rcases (mem_insertLe le a x bs).mp hx with rfl | hx
      · rcases htot x b with hxb | hbx
        · exact absurd hxb h
        · exact hbx
      · exact hb x hx

theorem pairwise_sortLe {α : Type} (le : α → α → Bool)
    (htrans : ∀ a b c, le a b = true → le b c = true → le a c = true)
    (htot : ∀ a b, le a b = true ∨ le b a = true)
    (l : List α) :
    (sortLe le l).Pairwise (fun x y => le x y = true) := by
  induction l with
  | nil => simp [sortLe]
  | cons a as ih => exact pairwise_insertLe le htrans htot a (sortLe le as) ih

theorem mem_dbSort (field : String) (dir : Int) (t : Task) (ts : List Task) :
    t ∈ dbSort field dir ts ↔ t ∈ ts :=
  (sortLe_perm _ ts).mem_iff

theorem mem_split_append {α : Type} (p : α → Bool) (l : List α) (x : α) :
    (x ∈ l.filter p ++ l.filter (fun a => !p a) ↔ x ∈ l)
    ∧ (x ∈ (l.filter p).reverse ++ l.filter (fun a => !p a) ↔ x ∈ l) := by
  constructor <;>
  · simp only [List.mem_append, List.mem_reverse, List.mem_filter, Bool.not_eq_true']
    by_cases h : p x = true <;> simp [h]

/-- Membership characterization of `listTasks`: the sort/post-processing
pipeline returns exactly the documents matching the built query. -/
theorem mem_listTasks (req : Identity) (f : ListFilters) (store : List Task) (t : Task) :
    t ∈ listTasks req f store ↔ t ∈ store ∧ matchesQuery req f t = true := by
  unfold listTasks
  cases hs : f.sort with
  | none => simp [List.mem_filter]
  | some sort =>
    dsimp only
    rw [← List.mem_filter (p := matchesQuery req f)]
    by_cases hinc : strIncludes sort "dueDate" = true
    · rw [if_pos hinc]
      by_cases hdir : (if startsWithDash sort then (-1 : Int) else 1) = -1
      · rw [hdir, if_pos rfl]
        exact ((mem_split_append (fun t => t.dueDate.isSome) _ t).2).trans
          (mem_dbSort _ _ t _)
      · rw [if_neg hdir]
        exact ((mem_split_append (fun t => t.dueDate.isSome) _ t).1).trans
          (mem_dbSort _ _ t _)
    · rw [if_neg hinc]
      exact mem_dbSort _ _ t _

/-- Task "A: due 2024-01-01" of the spec's sorting example. -/
def taskA : Task := ⟨1, "A", none, "To Do", "Low", some 20240101, none, 7, 7⟩

/-- Task "B: no due date" of the spec's sorting example. -/
def taskB : Task := ⟨2, "B", none, "To Do", "Low", none, none, 7, 7⟩

/-- Task "C: due 2024-06-01" of the spec's sorting example. -/
def taskC : Task := ⟨3, "C", none, "To Do", "Low", some 20240601, none, 7, 7⟩

/-- An identity-less filter set with only a sort parameter. -/
def sortOnly (s : String) : ListFilters := ⟨none, none, none, some s⟩

/-- C1: for a requester with role `user`, every task `listTasks` returns was
created by or is assigned to the requester; for a requester with role
`admin`, `listTasks` returns exactly the stored tasks matching the
status/priority/dueDate filters, with no ownership restriction. -/
theorem listTasks_visibility (req : Identity) (f : ListFilters) (store : List Task) :
    (req.role = "user" →
      ∀ t ∈ listTasks req f store, t.createdBy = req.id ∨ t.assignedTo = req.id)
    ∧ (req.role = "admin" →
      ∀ t, t ∈ listTasks req f store ↔ t ∈ store ∧ matchesFilters f t = true) := by
  constructor
  · intro hrole t ht
    rcases (mem_listTasks req f store t).mp ht with ⟨-, hq⟩
    unfold matchesQuery at hq
    rw [hrole] at hq
    simp only [Bool.and_eq_true, Bool.or_eq_true, beq_iff_eq] at hq
    rcases hq with ⟨(hadmin | hc) | ha, -⟩
    · exact absurd hadmin (by decide)
    · exact Or.inl hc
    · exact Or.inr ha
  · intro hrole t
    rw [mem_listTasks]
    unfold matchesQuery
    rw [hrole]
    simp

/-- Witness for C1 at a concrete requester, filter set and store. -/
theorem listTasks_visibility_witness :
    taskA.createdBy = 7 ∨ taskA.assignedTo = 7 :=
  (listTasks_visibility ⟨7, "user"⟩ ⟨none, none, none, none⟩ [taskA]).1 rfl
    taskA (by decide)

/-- C2 evaluated at the failing input: sorting the spec's example store
[A: 2024-01-01, B: none, C: 2024-06-01] by `-dueDate` yields [A, C, B]
(dated tasks ascending), not the claimed [C, A, B]; the store hands back
the dated tasks in descending order and the handler then reverses that
block. The ascending direction does behave as claimed. -/
theorem listTasks_sortDescDueDate_on_example :
    listTasks ⟨7, "admin"⟩ (sortOnly "-dueDate") [taskA, taskB, taskC]
      = [taskA, taskC, taskB]
    ∧ [taskA, taskC, taskB] ≠ [taskC, taskA, taskB]
    ∧ listTasks ⟨7, "admin"⟩ (sortOnly "dueDate") [taskA, taskB, taskC]
      = [taskA, taskC, taskB] := by decide

theorem dueKeyLe_total (a b : Task) : dueKeyLe a b = true ∨ dueKeyLe b a = true := by
  cases ha : a.dueDate <;> cases hb : b.dueDate <;> simp [dueKeyLe, ha, hb] <;> omega

theorem dueKeyLe_trans (a b c : Task) (hab : dueKeyLe a b = true)
    (hbc : dueKeyLe b c = true) : dueKeyLe a c = true := by
  cases ha : a.dueDate <;> cases hb : b.dueDate <;> cases hc : c.dueDate <;>
    simp_all [dueKeyLe] <;> omega

theorem fieldLe_dueDate : fieldLe "dueDate" = dueKeyLe := by
  funext a b
  unfold fieldLe
  rw [if_pos rfl]

theorem dbSort_asc (field : String) (ts : List Task) :
    dbSort field 1 ts = sortLe (fieldLe field) ts := by
  rfl

theorem dbSort_desc (field : String) (ts : List Task) :
    dbSort field (-1) ts = sortLe (fun a b => fieldLe field b a) ts := by
  rfl

/-- Shape of `listTasks` under `sort=dueDate`: the ascending store sort,
split as [dated, undated]. -/
theorem listTasks_sort_asc_eq (req : Identity) (f : ListFilters) (store : List Task)
    (h : f.sort = some "dueDate") :
    listTasks req f store =
      (sortLe dueKeyLe (store.filter (matchesQuery req f))).filter
          (fun t => t.dueDate.isSome)
        ++ (sortLe dueKeyLe (store.filter (matchesQuery req f))).filter
          (fun t => !t.dueDate.isSome) := by
  unfold listTasks
  rw [h]
  dsimp only
  rw [show startsWithDash "dueDate" = false from by decide]
  simp only [Bool.false_eq_true, if_false,
    show strIncludes "dueDate" "dueDate" = true from by decide, if_true,
    show ¬((1 : Int) = -1) from by decide, dbSort_asc, fieldLe_dueDate]

/-- Shape of `listTasks` under `sort=-dueDate`: the descending store sort,
with the dated block reversed, then the undated block. -/
theorem listTasks_sort_desc_eq (req : Identity) (f : ListFilters) (store : List Task)
    (h : f.sort = some "-dueDate") :
    listTasks req f store =
      ((sortLe (fun a b => dueKeyLe b a) (store.filter (matchesQuery req f))).filter
          (fun t => t.dueDate.isSome)).reverse
        ++ (sortLe (fun a b => dueKeyLe b a) (store.filter (matchesQuery req f))).filter
          (fun t => !t.dueDate.isSome) := by
  unfold listTasks
  rw [h]
  dsimp only
  rw [show startsWithDash "-dueDate" = true from by decide]
  simp only [if_true,
    show strIncludes "-dueDate" "dueDate" = true from by decide,
    show ("-dueDate".drop 1) = "dueDate" from by decide, dbSort_desc, fieldLe_dueDate]

/-- The relation in which a `dueDate`-ascending listing actually emits
tasks: dated tasks (ascending due date, ids ascending on ties) before
undated tasks (ids ascending). -/
def outLeAsc (a b : Task) : Bool :=
  match a.dueDate, b.dueDate with
  | some x, some y => x < y || (x == y && a.id ≤ b.id)
  | some _, none => true
  | none, some _ => false
  | none, none => a.id ≤ b.id

/-- The relation in which a `dueDate`-descending listing actually emits
tasks: dated tasks (ascending due date, ids ascending on ties — the dated
block is reversed) before undated tasks (ids descending). -/
def outLeDesc (a b : Task) : Bool :=
  match a.dueDate, b.dueDate with
  | some x, some y => x < y || (x == y && a.id ≤ b.id)
  | some _, none => true
  | none, some _ => false
  | none, none => b.id ≤ a.id

theorem isSome_false_eq_none {α : Type} {o : Option α} (h : (!o.isSome) = true) :
    o = none := by
  cases o <;> simp_all

theorem outLeAsc_of_some_left {a b : Task} (ha : a.dueDate.isSome = true)
    (h : dueKeyLe a b = true) : outLeAsc a b = true := by
  cases hda : a.dueDate <;> cases hdb : b.dueDate <;> simp_all [dueKeyLe, outLeAsc]

theorem outLeAsc_of_none_none {a b : Task} (ha : a.dueDate = none)
    (hb : b.dueDate = none) (h : dueKeyLe a b = true) : outLeAsc a b = true := by
  simp_all [dueKeyLe, outLeAsc]

theorem outLeAsc_some_none {a b : Task} (ha : a.dueDate.isSome = true)
    (hb : b.dueDate = none) : outLeAsc a b = true := by
  cases hda : a.dueDate <;> simp_all [outLeAsc]

theorem outLeDesc_of_some_some {a b : Task} (ha : a.dueDate.isSome = true)
    (hb : b.dueDate.isSome = true) (h : dueKeyLe a b = true) : outLeDesc a b = true := by
  cases hda : a.dueDate <;> cases hdb : b.dueDate <;> simp_all [dueKeyLe, outLeDesc]

theorem outLeDesc_of_none_none {a b : Task} (ha : a.dueDate = none)
    (hb : b.dueDate = none) (h : dueKeyLe b a = true) : outLeDesc a b = true := by
  simp_all [dueKeyLe, outLeDesc]

theorem outLeDesc_some_none {a b : Task} (ha : a.dueDate.isSome = true)
    (hb : b.dueDate = none) : outLeDesc a b = true := by
  cases hda : a.dueDate <;> simp_all [outLeDesc]

/-- Tied due dates, ids 1 < 2. -/
def taskD : Task := ⟨1, "D", none, "To Do", "Low", some 5, none, 7, 7⟩

/-- Tied due dates, ids 1 < 2. -/
def taskE : Task := ⟨2, "E", none, "To Do", "Low", some 5, none, 7, 7⟩

/-- C9 counterexample: two tasks tied on `dueDate`, sorted descending.
The claim predicts the identity tie-break follows the primary direction
(id 2 before id 1); the code emits the dated block reversed, so the tie
comes out id-ascending: [D, E], not [E, D]. -/
theorem listTasks_tiebreak_counterexample :
    taskD.dueDate = taskE.dueDate ∧ taskD.id < taskE.id
    ∧ listTasks ⟨7, "admin"⟩ (sortOnly "-dueDate") [taskD, taskE] = [taskD, taskE] := by
  decide

/-- C9 amended: sorting by `dueDate` in either direction yields a
deterministic order with ties broken by task identity, but not always in
the primary direction: ascending output is ordered by `outLeAsc` (dated
ascending with id-ascending ties, then undated id-ascending); descending
output is ordered by `outLeDesc` (dated block reversed — hence due-date
and tie-break ascending — then undated id-descending). -/
theorem listTasks_dueDate_order (req : Identity) (f : ListFilters) (store : List Task) :
    (f.sort = some "dueDate" →
      (listTasks req f store).Pairwise (fun a b => outLeAsc a b = true))
    ∧ (f.sort = some "-dueDate" →
      (listTasks req f store).Pairwise (fun a b => outLeDesc a b = true)) := by
  constructor
  · intro h
    rw [listTasks_sort_asc_eq req f store h]
    have hP := pairwise_sortLe dueKeyLe dueKeyLe_trans dueKeyLe_total
      (store.filter (matchesQuery req f))
    rw [List.pairwise_append]
    refine ⟨?_, ?_, ?_⟩
    · refine (hP.filter _).imp_of_mem ?_
      intro a b hma hmb hab
      exact outLeAsc_of_some_left (List.mem_filter.mp hma).2 hab
    · refine (hP.filter _).imp_of_mem ?_
      intro a b hma hmb hab
      have ha := isSome_false_eq_none (List.mem_filter.mp hma).2
      have hb := isSome_false_eq_none (List.mem_filter.mp hmb).2
      exact outLeAsc_of_none_none ha hb hab
    · intro a hma b hmb
      have ha := (List.mem_filter.mp hma).2
      have hb := isSome_false_eq_none (List.mem_filter.mp hmb).2
      exact outLeAsc_some_none ha hb
  · intro h
    rw [listTasks_sort_desc_eq req f store h]
    have hP := pairwise_sortLe (fun a b => dueKeyLe b a)
      (fun a b c hab hbc => dueKeyLe_trans c b a hbc hab)
      (fun a b => (dueKeyLe_total b a)) (store.filter (matchesQuery req f))
    rw [List.pairwise_append]
    refine ⟨?_, ?_, ?_⟩
    · rw [List.pairwise_reverse]
      refine (hP.filter _).imp_of_mem ?_
      intro a b hma hmb hab
      exact outLeDesc_of_some_some (List.mem_filter.mp hmb).2 (List.mem_filter.mp hma).2 hab
    · refine (hP.filter _).imp_of_mem ?_
      intro a b hma hmb hab
      have ha := isSome_false_eq_none (List.mem_filter.mp hma).2
      have hb := isSome_false_eq_none (List.mem_filter.mp hmb).2
      exact outLeDesc_of_none_none ha hb hab
    · intro a hma b hmb
      have ha' := (List.mem_filter.mp (List.mem_reverse.mp hma)).2
      have hb := isSome_false_eq_none (List.mem_filter.mp hmb).2
      exact outLeDesc_some_none ha' hb

/-- Witness for the amended C9 at a concrete store and both directions. -/
theorem listTasks_dueDate_order_witness :
    (listTasks ⟨7, "admin"⟩ (sortOnly "dueDate") [taskA, taskB, taskC]).Pairwise
      (fun a b => outLeAsc a b = true)
    ∧ (listTasks ⟨7, "admin"⟩ (sortOnly "-dueDate") [taskA, taskB, taskC]).Pairwise
      (fun a b => outLeDesc a b = true) :=
  ⟨(listTasks_dueDate_order ⟨7, "admin"⟩ (sortOnly "dueDate") [taskA, taskB, taskC]).1 rfl,
   (listTasks_dueDate_order ⟨7, "admin"⟩ (sortOnly "-dueDate") [taskA, taskB, taskC]).2 rfl⟩

/-- Outcome of `PUT /api/tasks/:id` (200 with the task, 404, or 403). -/
inductive UpdResult
  | ok (t : Task)
  | notFound
  | forbidden
deriving Repr, DecidableEq

/-- Outcome of `DELETE /api/tasks/:id` (200 ack, 404, or 403). -/
inductive DelResult
  | ok
  | notFound
  | forbidden
deriving Repr, DecidableEq

/-- The update payload `{title, description, status, priority, dueDate,
assignedTo} = req.body`; `none` models an absent field. A present string
field may be `""`, which is falsy in JS; a present `dueDate`/`assignedTo`
value is truthy (a JS `Date`/ObjectId is always truthy). -/
structure UpdateBody where
  title : Option String
  description : Option String
  status : Option String
  priority : Option String
  dueDate : Option Nat
  assignedTo : Option Nat
deriving Repr, DecidableEq

/-- JS `input || prior` for a required string field: the input replaces
the prior value only when present and non-falsy (non-empty). -/
def jsOrStr (input : Option String) (prior : String) : String :=
  match input with
  | none => prior
  | some s => if s = "" then prior else s

/-- JS `input || prior` for an optional string field (`description`). -/
def jsOrOptStr (input : Option String) (prior : Option String) : Option String :=
  match input with
  | none => prior
  | some s => if s = "" then prior else some s

/-- JS `input || prior` for `assignedTo` (present value is truthy). -/
def jsOrNat (input : Option Nat) (prior : Nat) : Nat :=
  match input with
  | none => prior
  | some n => n

/-- JS `input || prior` for `dueDate` (present value is truthy). -/
def jsOrOptNat (input : Option Nat) (prior : Option Nat) : Option Nat :=
  match input with
  | none => prior
  | some n => some n

/-- The six field assignments `task.x = x || task.x` of `router.put('/:id')`.
`id`, `createdBy` and `image` are not assigned. -/
def applyUpdate (body : UpdateBody) (t : Task) : Task :=
  { t with
    title := jsOrStr body.title t.title
    description := jsOrOptStr body.description t.description
    status := jsOrStr body.status t.status
    priority := jsOrStr body.priority t.priority
    dueDate := jsOrOptNat body.dueDate t.dueDate
    assignedTo := jsOrNat body.assignedTo t.assignedTo }

/-- `router.put('/:id')`: find the task (404 if absent), gate on
`createdBy == requester or role admin` (403), apply the partial update
and save it back to the store. Returns the response and the store after
the call. -/
def updateTask (req : Identity) (taskId : Nat) (body : UpdateBody)
    (store : List Task) : UpdResult × List Task :=
  match store.find? (fun t => t.id == taskId) with
  | none => (.notFound, store)
  | some task =>
    if task.createdBy != req.id && req.role != "admin" then (.forbidden, store)
    else
      let t' := applyUpdate body task
      (.ok t', store.map (fun u => if u.id == taskId then t' else u))

/-- `router.delete('/:id')`: find the task (404 if absent), gate on
ownership/admin (403), then `task.deleteOne()` removes that document. -/
def deleteTask (req : Identity) (taskId : Nat)
    (store : List Task) : DelResult × List Task :=
  match store.find? (fun t => t.id == taskId) with
  | none => (.notFound, store)
  | some task =>
    if task.createdBy != req.id && req.role != "admin" then (.forbidden, store)
    else (.ok, store.eraseP (fun t => t.id == taskId))

/-- A task created by user 9, used as concrete input for the mutation
claims. -/
def taskF : Task := ⟨1, "F", none, "To Do", "Low", none, none, 9, 9⟩

/-- The empty update payload. -/
def emptyBody : UpdateBody := ⟨none, none, none, none, none, none⟩

/-- C3: with the target task present, update and delete are permitted
(not 403) exactly when the requester is the creator or an admin, and a
403 leaves the store untouched. -/
theorem mutation_authorization (req : Identity) (taskId : Nat) (body : UpdateBody)
    (store : List Task) (task : Task)
    (hfind : store.find? (fun t => t.id == taskId) = some task) :
    (((req.id = task.createdBy ∨ req.role = "admin") ↔
        (updateTask req taskId body store).1 ≠ UpdResult.forbidden)
      ∧ ((updateTask req taskId body store).1 = UpdResult.forbidden →
        (updateTask req taskId body store).2 = store))
    ∧ (((req.id = task.createdBy ∨ req.role = "admin") ↔
        (deleteTask req taskId store).1 ≠ DelResult.forbidden)
      ∧ ((deleteTask req taskId store).1 = DelResult.forbidden →
        (deleteTask req taskId store).2 = store)) := by
  unfold updateTask deleteTask
  rw [hfind]
  dsimp only
  by_cases hb : (task.createdBy != req.id && req.role != "admin") = true
  · rw [if_pos hb, if_pos hb]
    simp only [Bool.and_eq_true, bne_iff_ne, ne_eq] at hb
    simp only [ne_eq, not_true_eq_false, iff_false, not_or, forall_const, and_true,
      true_and]
    constructor <;> exact ⟨fun h => hb.1 h.symm, hb.2⟩
  · rw [if_neg hb, if_neg hb]
    simp only [Bool.and_eq_true, bne_iff_ne, ne_eq, not_and, not_not] at hb
    constructor <;> constructor
    · constructor
      · intro _ h
        exact UpdResult.noConfusion h
      · intro _
        by_cases hc : task.createdBy = req.id
        · exact Or.inl hc.symm
        · exact Or.inr (hb hc)
    · intro h
      exact absurd h (by simp)
    · constructor
      · intro _ h
        exact DelResult.noConfusion h
      · intro _
        by_cases hc : task.createdBy = req.id
        · exact Or.inl hc.symm
        · exact Or.inr (hb hc)
    · intro h
      exact absurd h (by simp)

/-- Witness for C3: a non-owner, non-admin requester leaves the store
unchanged. -/
theorem mutation_authorization_witness :
    (updateTask ⟨5, "user"⟩ 1 emptyBody [taskF]).2 = [taskF] :=
  (mutation_authorization ⟨5, "user"⟩ 1 emptyBody [taskF] taskF (by decide)).1.2
    (by decide)

/-- C4: a permitted update replaces exactly the six mutable fields, each
only when the input field is present and non-falsy; `id`, `createdBy` and
`image` (and every absent/falsy field) keep their prior values, and the
payload containing only `status = "In Progress"` changes status and
nothing else. -/
theorem updateTask_partial_update (req : Identity) (taskId : Nat) (body : UpdateBody)
    (store : List Task) (task : Task)
    (hfind : store.find? (fun t => t.id == taskId) = some task)
    (hperm : req.id = task.createdBy ∨ req.role = "admin") :
    (updateTask req taskId body store).1 = UpdResult.ok (applyUpdate body task)
    ∧ (applyUpdate body task).id = task.id
    ∧ (applyUpdate body task).createdBy = task.createdBy
    ∧ (applyUpdate body task).image = task.image
    ∧ (body.title = none ∨ body.title = some "" →
        (applyUpdate body task).title = task.title)
    ∧ (∀ s, body.title = some s → s ≠ "" → (applyUpdate body task).title = s)
    ∧ (body.description = none ∨ body.description = some "" →
        (applyUpdate body task).description = task.description)
    ∧ (∀ s, body.description = some s → s ≠ "" →
        (applyUpdate body task).description = some s)
    ∧ (body.status = none ∨ body.status = some "" →
        (applyUpdate body task).status = task.status)
    ∧ (∀ s, body.status = some s → s ≠ "" → (applyUpdate body task).status = s)
    ∧ (body.priority = none ∨ body.priority = some "" →
        (applyUpdate body task).priority = task.priority)
    ∧ (∀ s, body.priority = some s → s ≠ "" → (applyUpdate body task).priority = s)
    ∧ (body.dueDate = none → (applyUpdate body task).dueDate = task.dueDate)
    ∧ (∀ d, body.dueDate = some d → (applyUpdate body task).dueDate = some d)
    ∧ (body.assignedTo = none → (applyUpdate body task).assignedTo = task.assignedTo)
    ∧ (∀ a, body.assignedTo = some a → (applyUpdate body task).assignedTo = a)
    ∧ (body = ⟨none, none, some "In Progress", none, none, none⟩ →
        applyUpdate body task = { task with status := "In Progress" }) := by
  have hcond : (task.createdBy != req.id && req.role != "admin") = false := by
    rcases hperm with h | h
    · simp [h]
    · simp [h]
  refine ⟨?_, ?_⟩
  · unfold updateTask
    rw [hfind]
    dsimp only
    rw [hcond]
    simp
  refine ⟨rfl, rfl, rfl, ?_, ?_, ?_, ?_, ?_, ?_, ?_, ?_, ?_, ?_, ?_, ?_, ?_⟩
  · rintro (h | h) <;> simp [applyUpdate, jsOrStr, h]
  · intro s h hs
    simp [applyUpdate, jsOrStr, h, hs]
  · rintro (h | h) <;> simp [applyUpdate, jsOrOptStr, h]
  · intro s h hs
    simp [applyUpdate, jsOrOptStr, h, hs]
  · rintro (h | h) <;> simp [applyUpdate, jsOrStr, h]
  · intro s h hs
    simp [applyUpdate, jsOrStr, h, hs]
  · rintro (h | h) <;> simp [applyUpdate, jsOrStr, h]
  · intro s h hs
    simp [applyUpdate, jsOrStr, h, hs]
  · intro h
    simp [applyUpdate, jsOrOptNat, h]
  · intro d h
    simp [applyUpdate, jsOrOptNat, h]
  · intro h
    simp [applyUpdate, jsOrNat, h]
  · intro a h
    simp [applyUpdate, jsOrNat, h]
  · intro h
    subst h
    simp [applyUpdate, jsOrStr, jsOrOptStr, jsOrNat, jsOrOptNat]

/-- Witness for C4: updating `taskF` with only `status = "In Progress"`
succeeds and yields the task with just the status replaced. -/
theorem updateTask_partial_update_witness :
    (updateTask ⟨9, "user"⟩ 1 ⟨none, none, some "In Progress", none, none, none⟩
      [taskF]).1
      = UpdResult.ok (applyUpdate
          ⟨none, none, some "In Progress", none, none, none⟩ taskF)
    ∧ applyUpdate ⟨none, none, some "In Progress", none, none, none⟩ taskF
      = { taskF with status := "In Progress" } :=
  ⟨(updateTask_partial_update ⟨9, "user"⟩ 1
      ⟨none, none, some "In Progress", none, none, none⟩ [taskF] taskF
      (by decide) (Or.inl rfl)).1,
   (updateTask_partial_update ⟨9, "user"⟩ 1
      ⟨none, none, some "In Progress", none, none, none⟩ [taskF] taskF
      (by decide) (Or.inl rfl)).2.2.2.2.2.2.2.2.2.2.2.2.2.2.2.2 rfl⟩

theorem find?_key_of_nodup {α : Type} (key : α → Nat) (l : List α) (x : α)
    (hn : (l.map key).Nodup) (hx : x ∈ l) :
    l.find? (fun y => key y == key x) = some x := by
  induction l with
  | nil => cases hx
  | cons a as ih =>
    rw [List.map_cons, List.nodup_cons] at hn
    rcases List.mem_cons.mp hx with rfl | hx
    · rw [List.find?_cons_of_pos (p := fun y => key y == key x) as (by simp)]
    · have hneg : ¬((fun y => key y == key x) a = true) := by
        simp only [beq_iff_eq]
        intro h
        exact hn.1 (h ▸ List.mem_map_of_mem key hx)
      rw [List.find?_cons_of_neg (p := fun y => key y == key x) as hneg]
      exact ih hn.2 hx

theorem mem_eraseP_of_key_nodup {store : List Task} {task : Task}
    (hn : (store.map Task.id).Nodup) (hmem : task ∈ store) (t : Task) :
    t ∈ store.eraseP (fun u => u.id == task.id) ↔ t ∈ store ∧ t.id ≠ task.id := by
  induction store with
  | nil => cases hmem
  | cons a as ih =>
    rw [List.map_cons, List.nodup_cons] at hn
    by_cases hpa : (a.id == task.id) = true
    · rw [List.eraseP_cons_of_pos (p := fun (u : Task) => u.id == task.id) hpa]
      have htask_eq : a.id = task.id := by simpa using hpa
      constructor
      · intro ht
        refine ⟨List.mem_cons_of_mem a ht, ?_⟩
        intro he
        exact hn.1 (htask_eq ▸ he ▸ List.mem_map_of_mem Task.id ht)
      · rintro ⟨ht, hne⟩
        rcases List.mem_cons.mp ht with rfl | ht
        · exact absurd htask_eq hne
        · exact ht
    · rw [List.eraseP_cons_of_neg (p := fun (u : Task) => u.id == task.id) hpa]
      have htas : task ∈ as := by
        rcases List.mem_cons.mp hmem with rfl | h
        · simp at hpa
        · exact h
      constructor
      · intro ht
        rcases List.mem_cons.mp ht with rfl | ht
        · refine ⟨List.mem_cons_self t as, ?_⟩
          intro he
          exact hpa (by simp [he])
        · have h2 := (ih hn.2 htas).mp ht
          exact ⟨List.mem_cons_of_mem a h2.1, h2.2⟩
      · rintro ⟨ht, hne⟩
        rcases List.mem_cons.mp ht with rfl | ht
        · exact List.mem_cons_self t _
        · exact List.mem_cons_of_mem a ((ih hn.2 htas).mpr ⟨ht, hne⟩)

/-- C8: the creator's delete of their own task succeeds with an
acknowledgement; afterwards a `findById` of that id reports not-found,
and the store keeps exactly the other documents, each unmodified. -/
theorem deleteTask_owner (req : Identity) (store : List Task) (task : Task)
    (hn : (store.map Task.id).Nodup) (hmem : task ∈ store)
    (hown : req.id = task.createdBy) :
    (deleteTask req task.id store).1 = DelResult.ok
    ∧ (deleteTask req task.id store).2.find? (fun t => t.id == task.id) = none
    ∧ (∀ t, t ∈ (deleteTask req task.id store).2 ↔ t ∈ store ∧ t.id ≠ task.id) := by
  have hfind : store.find? (fun t => t.id == task.id) = some task :=
    find?_key_of_nodup Task.id store task hn hmem
  unfold deleteTask
  rw [hfind]
  dsimp only
  have hcond : (task.createdBy != req.id && req.role != "admin") = false := by
    simp [hown]
  rw [hcond]
  simp only [Bool.false_eq_true, if_false]
  refine ⟨by trivial, ?_, ?_⟩
  · rw [List.find?_eq_none]
    intro t ht
    have h2 := (mem_eraseP_of_key_nodup hn hmem t).mp ht
    simpa using h2.2
  · intro t
    exact mem_eraseP_of_key_nodup hn hmem t

/-- Witness for C8: owner 9 deletes `taskF`; the lookup afterwards is
empty. -/
theorem deleteTask_owner_witness :
    (deleteTask ⟨9, "user"⟩ taskF.id [taskF]).1 = DelResult.ok
    ∧ (deleteTask ⟨9, "user"⟩ taskF.id [taskF]).2.find?
        (fun t => t.id == taskF.id) = none :=
  ⟨(deleteTask_owner ⟨9, "user"⟩ [taskF] taskF (by decide) (by decide) rfl).1,
   (deleteTask_owner ⟨9, "user"⟩ [taskF] taskF (by decide) (by decide) rfl).2.1⟩

/-- Outcome of `POST /api/tasks` (201 with the task, 400, or 500). -/
inductive CreateResult
  | created (t : Task)
  | validationError
  | serverError
deriving Repr, DecidableEq

/-- The creation payload `{title, description, status, priority, dueDate,
assignedTo} = req.body`; `none` models an absent field; `dueDate` is
modelled after its ISO8601 validation as a timestamp. -/
structure CreateBody where
  title : Option String
  description : Option String
  status : Option String
  priority : Option String
  dueDate : Option Nat
  assignedTo : Option Nat
deriving Repr, DecidableEq

/-- The `new Task({...})` document of `router.post('/')`: schema defaults
`To Do`/`Low` apply to absent status/priority, `createdBy = req.user.id`,
`assignedTo = assignedTo || req.user.id`, and `image` is the stored
upload path or null. -/
def buildTask (req : Identity) (body : CreateBody) (file : Option String)
    (newId : Nat) : Task :=
  { id := newId
    title := body.title.getD ""
    description := body.description
    status := body.status.getD "To Do"
    priority := body.priority.getD "Low"
    dueDate := body.dueDate
    image := file.map (fun fn => String.append "/uploads/" fn)
    createdBy := req.id
    assignedTo := body.assignedTo.getD req.id }

/-- `task.save()`: mongoose checks the schema enums and persists the
document; an enum violation rejects the save (surfaced as a 500). -/
def trySave (doc : Task) (store : List Task) : CreateResult × List Task :=
  if (doc.status == "To Do" || doc.status == "In Progress"
        || doc.status == "Completed")
      && (doc.priority == "Low" || doc.priority == "Medium"
        || doc.priority == "High")
  then (.created doc, store ++ [doc])
  else (.serverError, store)

/-- `router.post('/')` in `src/index.js`: the express-validator title
check (400), then the assigned-user existence check (400 `Assigned user
does not exist`) before any construction, then build and save. `newId`
is the ObjectId the store mints for the new document. -/
def createTask (req : Identity) (body : CreateBody) (file : Option String)
    (users : List User) (store : List Task) (newId : Nat) :
    CreateResult × List Task :=
  if body.title.getD "" == "" then (.validationError, store)
  else
    match body.assignedTo with
    | some a =>
      match users.find? (fun u => u.id == a) with
      | none => (.validationError, store)
      | some _ => trySave (buildTask req body file newId) store
    | none => trySave (buildTask req body file newId) store

/-- C6: a creation request whose `assignedTo` matches no user id fails
with the validation error and writes nothing to the store. -/
theorem createTask_dangling_assignee (req : Identity) (body : CreateBody)
    (file : Option String) (users : List User) (store : List Task) (newId : Nat)
    (a : Nat) (ha : body.assignedTo = some a)
    (hu : users.find? (fun u => u.id == a) = none) :
    createTask req body file users store newId
      = (CreateResult.validationError, store) := by
  unfold createTask
  by_cases ht : (body.title.getD "" == "") = true
  · rw [if_pos ht]
  · rw [if_neg ht, ha]
    dsimp only
    rw [hu]

/-- Witness for C6: `assignedTo = 42` with an empty user directory. -/
theorem createTask_dangling_assignee_witness :
    createTask ⟨7, "user"⟩ ⟨some "T", none, none, none, none, some 42⟩ none [] [] 3
      = (CreateResult.validationError, []) :=
  createTask_dangling_assignee ⟨7, "user"⟩
    ⟨some "T", none, none, none, none, some 42⟩ none [] [] 3 42 rfl rfl

theorem trySave_created {doc t : Task} {store store2 : List Task}
    (h : trySave doc store = (CreateResult.created t, store2)) :
    t = doc ∧ store2 = store ++ [doc] := by
  unfold trySave at h
  split at h
  · simp only [Prod.mk.injEq, CreateResult.created.injEq] at h
    exact ⟨h.1.symm, h.2.symm⟩
  · simp at h

/-- C7: a successful creation stamps `createdBy` with the requester's id,
defaults `assignedTo` to the creator when absent, and defaults status to
`To Do` and priority to `Low` when absent; the new document is appended
to the store. -/
theorem createTask_defaults (req : Identity) (body : CreateBody) (file : Option String)
    (users : List User) (store : List Task) (newId : Nat) (t : Task)
    (store2 : List Task)
    (h : createTask req body file users store newId
      = (CreateResult.created t, store2)) :
    t.createdBy = req.id
    ∧ (body.assignedTo = none → t.assignedTo = req.id)
    ∧ (body.status = none → t.status = "To Do")
    ∧ (body.priority = none → t.priority = "Low")
    ∧ store2 = store ++ [t] := by
  unfold createTask at h
  split at h
  · exact absurd h (by simp)
  · cases hass : body.assignedTo with
    | some a =>
      rw [hass] at h
      dsimp only at h
      split at h
      · exact absurd h (by simp)
      · obtain ⟨h1, h2⟩ := trySave_created h
        subst h1
        refine ⟨rfl, ?_, ?_, ?_, h2⟩
        · intro h0
          exact absurd h0 (by simp [hass])
        · intro h0
          simp [buildTask, h0]
        · intro h0
          simp [buildTask, h0]
    | none =>
      rw [hass] at h
      dsimp only at h
      obtain ⟨h1, h2⟩ := trySave_created h
      subst h1
      refine ⟨rfl, ?_, ?_, ?_, h2⟩
      · intro h0
        simp [buildTask, hass]
      · intro h0
        simp [buildTask, h0]
      · intro h0
        simp [buildTask, h0]

/-- Witness for C7: a title-only creation by user 7. -/
theorem createTask_defaults_witness :
    (⟨3, "T", none, "To Do", "Low", none, none, 7, 7⟩ : Task).createdBy = 7
    ∧ ((⟨some "T", none, none, none, none, none⟩ : CreateBody).assignedTo = none →
        (⟨3, "T", none, "To Do", "Low", none, none, 7, 7⟩ : Task).assignedTo = 7)
    ∧ ((⟨some "T", none, none, none, none, none⟩ : CreateBody).status = none →
        (⟨3, "T", none, "To Do", "Low", none, none, 7, 7⟩ : Task).status = "To Do")
    ∧ ((⟨some "T", none, none, none, none, none⟩ : CreateBody).priority = none →
        (⟨3, "T", none, "To Do", "Low", none, none, 7, 7⟩ : Task).priority = "Low")
    ∧ [(⟨3, "T", none, "To Do", "Low", none, none, 7, 7⟩ : Task)]
      = [] ++ [(⟨3, "T", none, "To Do", "Low", none, none, 7, 7⟩ : Task)] :=
  createTask_defaults ⟨7, "user"⟩ ⟨some "T", none, none, none, none, none⟩ none
    [] [] 3 ⟨3, "T", none, "To Do", "Low", none, none, 7, 7⟩
    [⟨3, "T", none, "To Do", "Low", none, none, 7, 7⟩] (by decide)

/-- A leaderboard row: the `$project`ed `{_id, name, email,
completedTasks}` document. -/
structure LeaderRow where
  id : Nat
  name : String
  email : String
  completedTasks : Nat
deriving Repr, DecidableEq

/-- The aggregation of `router.get('/leaderboard')`: `$match` on
`status = Completed`, `$group` by `assignedTo` counting `$sum: 1`,
`$lookup` into the users collection, `$unwind` (dropping groups whose id
matches no user), `$project` of name/email/count, and
`$sort {completedTasks: -1}`. -/
def getLeaderboard (tasks : List Task) (users : List User) : List LeaderRow :=
  let completed := tasks.filter (fun t => t.status == "Completed")
  let ids := (completed.map (fun t => t.assignedTo)).dedup
  let rows := ids.filterMap (fun i =>
    match users.find? (fun u => u.id == i) with
    | none => none
    | some u => some ⟨i, u.name, u.email,
        (completed.filter (fun t => t.assignedTo == i)).length⟩)
  sortLe (fun r s => s.completedTasks ≤ r.completedTasks) rows

/-- Specification-side count: the number of stored tasks that are
Completed and assigned to `i`. -/
def completedCount (i : Nat) (tasks : List Task) : Nat :=
  (tasks.filter (fun t => t.status == "Completed" && t.assignedTo == i)).length

theorem filter_completed_length (i : Nat) (tasks : List Task) :
    ((tasks.filter (fun t => t.status == "Completed")).filter
      (fun t => t.assignedTo == i)).length = completedCount i tasks := by
  unfold completedCount
  have hfun : (fun (t : Task) => (t.assignedTo == i) && (t.status == "Completed"))
      = (fun t => (t.status == "Completed") && (t.assignedTo == i)) := by
    funext t
    exact Bool.and_comm _ _
  rw [List.filter_filter, hfun]

/-- Membership characterization of the leaderboard rows. -/
theorem mem_getLeaderboard (tasks : List Task) (users : List User) (row : LeaderRow) :
    row ∈ getLeaderboard tasks users ↔
      ∃ i ∈ ((tasks.filter (fun t => t.status == "Completed")).map
          (fun t => t.assignedTo)).dedup,
        ∃ u, users.find? (fun v => v.id == i) = some u
          ∧ row = ⟨i, u.name, u.email,
              ((tasks.filter (fun t => t.status == "Completed")).filter
                (fun t => t.assignedTo == i)).length⟩ := by
  unfold getLeaderboard
  rw [mem_sortLe, List.mem_filterMap]
  constructor
  · rintro ⟨i, hi, hf⟩
    cases hfind : users.find? (fun v => v.id == i) with
    | none =>
      rw [hfind] at hf
      cases hf
    | some u =>
      rw [hfind] at hf
      dsimp only at hf
      exact ⟨i, hi, u, hfind, (Option.some.inj hf).symm⟩
  · rintro ⟨i, hi, u, hfind, hrow⟩
    refine ⟨i, hi, ?_⟩
    rw [hfind]
    dsimp only
    rw [hrow]

/-- C5: the leaderboard has a row for exactly the users who are assignees
of at least one Completed task, carrying that user's name, email and
completed-task count, and rows are ordered by count descending (so a
strictly larger count is ranked above a smaller one). -/
theorem getLeaderboard_spec (tasks : List Task) (users : List User)
    (hu : (users.map User.id).Nodup) :
    (∀ u ∈ users, 0 < completedCount u.id tasks →
      ∃ row ∈ getLeaderboard tasks users,
        row.id = u.id ∧ row.name = u.name ∧ row.email = u.email
          ∧ row.completedTasks = completedCount u.id tasks)
    ∧ (∀ row ∈ getLeaderboard tasks users,
        ∃ u ∈ users, row.id = u.id ∧ row.name = u.name ∧ row.email = u.email
          ∧ row.completedTasks = completedCount u.id tasks
          ∧ 0 < row.completedTasks)
    ∧ (getLeaderboard tasks users).Pairwise
        (fun r s => s.completedTasks ≤ r.completedTasks) := by
  refine ⟨?_, ?_, ?_⟩
  · intro u humem hcnt
    unfold completedCount at hcnt
    obtain ⟨t, ht⟩ := List.exists_mem_of_length_pos hcnt
    rw [List.mem_filter] at ht
    obtain ⟨htm, hts⟩ := ht
    rw [Bool.and_eq_true] at hts
    have htc : t ∈ tasks.filter (fun t => t.status == "Completed") :=
      List.mem_filter.mpr ⟨htm, hts.1⟩
    have hta : t.assignedTo = u.id := by simpa using hts.2
    have hid : u.id ∈ ((tasks.filter (fun t => t.status == "Completed")).map
        (fun t => t.assignedTo)).dedup := by
      rw [List.mem_dedup]
      exact hta ▸ List.mem_map_of_mem (fun t => t.assignedTo) htc
    have hfind : users.find? (fun v => v.id == u.id) = some u :=
      find?_key_of_nodup User.id users u hu humem
    refine ⟨⟨u.id, u.name, u.email,
      ((tasks.filter (fun t => t.status == "Completed")).filter
        (fun t => t.assignedTo == u.id)).length⟩, ?_, rfl, rfl, rfl, ?_⟩
    · rw [mem_getLeaderboard]
      exact ⟨u.id, hid, u, hfind, rfl⟩
    · exact filter_completed_length u.id tasks
  · intro row hrow
    obtain ⟨i, hi, u, hfind, hroweq⟩ := (mem_getLeaderboard tasks users row).mp hrow
    have humem : u ∈ users := List.mem_of_find?_eq_some hfind
    have hui : u.id = i := by
      have := List.find?_some hfind
      simpa using this
    have hpos : 0 < row.completedTasks := by
      rw [List.mem_dedup] at hi
      obtain ⟨t, htc, hta⟩ := List.mem_map.mp hi
      have : t ∈ (tasks.filter (fun t => t.status == "Completed")).filter
          (fun t => t.assignedTo == i) :=
        List.mem_filter.mpr ⟨htc, by simp [hta]⟩
      rw [hroweq]
      exact List.length_pos.mpr (List.ne_nil_of_mem this)
    refine ⟨u, humem, ?_, ?_, ?_, ?_, hpos⟩
    · rw [hroweq, hui]
    · rw [hroweq]
    · rw [hroweq]
    · rw [hroweq]
      dsimp only
      rw [hui, filter_completed_length]
  · unfold getLeaderboard
    have hp := pairwise_sortLe
      (fun (r s : LeaderRow) => decide (s.completedTasks ≤ r.completedTasks))
      (fun a b c hab hbc => by
        simp only [decide_eq_true_eq] at *
        omega)
      (fun a b => by
        simp only [decide_eq_true_eq]
        omega)
      ((((tasks.filter (fun t => t.status == "Completed")).map
          (fun t => t.assignedTo)).dedup).filterMap (fun i =>
        match users.find? (fun u => u.id == i) with
        | none => none
        | some u => some ⟨i, u.name, u.email,
            ((tasks.filter (fun t => t.status == "Completed")).filter
              (fun t => t.assignedTo == i)).length⟩))
    exact hp.imp (fun h => by simpa using h)

/-- Witness for C5 at the spec example: U1 with two completed tasks is
ranked above U2 with one. -/
theorem getLeaderboard_spec_witness :
    (getLeaderboard
        [⟨1, "t1", none, "Completed", "Low", none, none, 11, 11⟩,
         ⟨2, "t2", none, "Completed", "Low", none, none, 11, 11⟩,
         ⟨3, "t3", none, "Completed", "Low", none, none, 11, 12⟩]
        [⟨11, "U1", "u1@x", "user"⟩, ⟨12, "U2", "u2@x", "user"⟩]).Pairwise
      (fun r s => s.completedTasks ≤ r.completedTasks) :=
  (getLeaderboard_spec
    [⟨1, "t1", none, "Completed", "Low", none, none, 11, 11⟩,
     ⟨2, "t2", none, "Completed", "Low", none, none, 11, 11⟩,
     ⟨3, "t3", none, "Completed", "Low", none, none, 11, 12⟩]
    [⟨11, "U1", "u1@x", "user"⟩, ⟨12, "U2", "u2@x", "user"⟩] (by decide)).2.2

/-- C10: a Completed task whose assignee id matches no user contributes
no leaderboard row: the `$unwind` after the `$lookup` silently drops the
dangling group instead of erroring. -/
theorem getLeaderboard_dangling (tasks : List Task) (users : List User) (i : Nat)
    (hi : ∀ u ∈ users, u.id ≠ i) :
    ∀ row ∈ getLeaderboard tasks users, row.id ≠ i := by
  intro row hrow
  obtain ⟨j, hj, u, hfind, hroweq⟩ := (mem_getLeaderboard tasks users row).mp hrow
  have humem : u ∈ users := List.mem_of_find?_eq_some hfind
  have huj : u.id = j := by
    have := List.find?_some hfind
    simpa using this
  rw [hroweq]
  intro hji
  exact hi u humem (huj.trans hji)

/-- Witness for C10: with one Completed task assigned to the unknown id
42 and one assigned to user 8, the surviving row is not 42's. -/
theorem getLeaderboard_dangling_witness :
    (⟨8, "U8", "u8@x", 1⟩ : LeaderRow).id ≠ 42 :=
  getLeaderboard_dangling
    [⟨1, "t1", none, "Completed", "Low", none, none, 8, 42⟩,
     ⟨2, "t2", none, "Completed", "Low", none, none, 8, 8⟩]
    [⟨8, "U8", "u8@x", "user"⟩] 42 (by decide)
    ⟨8, "U8", "u8@x", 1⟩ (by decide)

end TMA
